import Mathlib

/-!
Shallow embedding of the spaced-repetition core of the wps_nihongo
application, translated from `src/unnamed/part_002` (the refined variant of
`src/utils/srsUtils.ts`; the two differ only in whether the ease factor is
updated on a failed review, and `part_002` additionally contains
`getNextInterval` and `parseCSVImports` and sorts the due list).

Modelling conventions:
- JavaScript numbers holding whole quantities (`interval`, `repetition`,
  timestamps, `quality`) are modelled as `Int`; the ease factor `ef`, which
  carries fractional values, is modelled as `ℚ` (the source formulas are
  written in decimal arithmetic; rational arithmetic realises them exactly).
- `Math.round` is `jsRound x = ⌊x + 1/2⌋` (round half toward positive
  infinity, exactly the JavaScript behaviour on all reals).
- `Date.now()` is lifted to an explicit `now : Int` parameter, and the
  random id of `createFlashcard` to an explicit `id : String` parameter.
-/

namespace WpsNihongo

/-- Content fields of a vocabulary entry, from `src/types.ts` as used by
`parseCSVImports` in `src/unnamed/part_002` (kanji, kana, romaji, meanings). -/
structure VocabularyItem where
  kanji : String
  kana : String
  romaji : String
  meanings : String
  deriving Repr, DecidableEq

/-- A scheduled flashcard: the `VocabularyItem` content together with the
scheduling fields `id`, `interval`, `repetition`, `ef`, `nextReview`, `tags`,
from `src/types.ts` / `src/unnamed/part_002`. -/
structure Flashcard where
  id : String
  kanji : String
  kana : String
  romaji : String
  meanings : String
  interval : Int
  repetition : Int
  ef : ℚ
  nextReview : Int
  tags : List String
  deriving Repr, DecidableEq

/-- JavaScript `Math.round`: round half toward positive infinity. -/
def jsRound (x : ℚ) : Int := ⌊x + 1/2⌋

/-- Embedding of `getNextInterval` from `src/unnamed/part_002` lines 6-21:
the interval branch of the SM-2 update, without touching the card. -/
def getNextInterval (card : Flashcard) (quality : Int) : Int :=
  if 3 ≤ quality then
    if card.repetition = 0 then 1
    else if card.repetition = 1 then 6
    else jsRound ((card.interval : ℚ) * card.ef)
  else 1

/-- Embedding of `calculateReview` from `src/unnamed/part_002` lines 23-57:
the simplified SM-2 review update. `now` stands for `Date.now()`. -/
def calculateReview (card : Flashcard) (quality : Int) (now : Int) : Flashcard :=
  let interval : Int :=
    if 3 ≤ quality then
      if card.repetition = 0 then 1
      else if card.repetition = 1 then 6
      else jsRound ((card.interval : ℚ) * card.ef)
    else 1
  let repetition : Int := if 3 ≤ quality then card.repetition + 1 else 0
  let ef : ℚ :=
    if 3 ≤ quality then
      let efU := card.ef +
        (1/10 - ((5 - quality : Int) : ℚ) * (8/100 + ((5 - quality : Int) : ℚ) * (2/100)))
      if efU < 13/10 then 13/10 else efU
    else card.ef
  { card with
    repetition := repetition
    interval := interval
    ef := ef
    nextReview := now + interval * 24 * 60 * 60 * 1000 }

/-- Embedding of `createFlashcard` from `src/unnamed/part_002` lines 59-69.
The source generates `id` from `Date.now()` plus a random suffix and reads
`Date.now()` for `nextReview`; both are lifted to parameters. -/
def createFlashcard (vocab : VocabularyItem) (tags : List String)
    (id : String) (now : Int) : Flashcard :=
  { id := id
    kanji := vocab.kanji
    kana := vocab.kana
    romaji := vocab.romaji
    meanings := vocab.meanings
    interval := 0
    repetition := 0
    ef := 5/2
    nextReview := now
    tags := tags }

/-- Embedding of `getDueCards` from `src/unnamed/part_002` lines 207-212:
filter the due cards and sort them ascending by `nextReview` (the source
comparator `a.nextReview - b.nextReview` orders by `nextReview`). -/
def getDueCards (cards : List Flashcard) (now : Int) : List Flashcard :=
  (cards.filter (fun card => decide (card.nextReview ≤ now))).mergeSort
    (fun a b => decide (a.nextReview ≤ b.nextReview))

/-- Folding `calculateReview` over a finite sequence of quality ratings
(the ease factor and interval fields never depend on `now`). -/
def applyReviews (card : Flashcard) (qs : List Int) (now : Int) : Flashcard :=
  qs.foldl (fun c q => calculateReview c q now) card

/-- The sequence of cards obtained by repeatedly reviewing with a fixed
quality rating: `reviewSeq card q now n` is the card after `n` reviews. -/
def reviewSeq (card : Flashcard) (quality : Int) (now : Int) : Nat → Flashcard
  | 0 => card
  | n + 1 => calculateReview (reviewSeq card quality now n) quality now

/-! CSV bulk import, `parseCSVImports` from `src/unnamed/part_002` lines
71-105. The string processing of the source (regex split, trim, quote
stripping) is embedded as executable functions on `List Char`. -/

/-- Characters removed by JavaScript trim and matched by the regex class
`\s`, restricted to the ASCII range (the inputs of interest contain no
exotic Unicode whitespace). -/
def isJsSpace (c : Char) : Bool :=
  c = ' ' || c = '\t' || c = '\n' || c = '\r' || c = '\x0b' || c = '\x0c'

/-- JavaScript `String.prototype.trim`: drop leading and trailing
whitespace. -/
def jsTrim (cs : List Char) : List Char :=
  ((cs.dropWhile isJsSpace).reverse.dropWhile isJsSpace).reverse

/-- Splitting on `/\r?\n/` as in line 72 of the source: split at each
newline and drop one carriage return immediately before it. -/
def splitLinesAux : List Char → List Char → List (List Char)
  | [], acc => [acc.reverse]
  | c :: rest, acc =>
    if c = '\n' then
      (match acc with
        | '\r' :: acc2 => acc2.reverse
        | _ => acc.reverse) :: splitLinesAux rest []
    else splitLinesAux rest (c :: acc)

/-- Split a text into lines the way `csvText.split(/\r?\n/)` does. -/
def splitLines (cs : List Char) : List (List Char) := splitLinesAux cs []

/-- Number of double-quote characters in a list. -/
def countQuotes (cs : List Char) : Nat := cs.countP (fun c => c = '"')

/-- The quote-aware comma split of line 85 of the source,
`line.split(/,(?=(?:(?:[^"]*"){2})*[^"]*$)/)`: split at exactly the commas
that are followed by an even number of double quotes (the lookahead matches
iff the rest of the line contains an even number of quotes). -/
def csvSplitAux : List Char → List Char → List (List Char)
  | [], acc => [acc.reverse]
  | c :: rest, acc =>
    if c = ',' && countQuotes rest % 2 = 0 then acc.reverse :: csvSplitAux rest []
    else csvSplitAux rest (c :: acc)

/-- Quote-aware comma split of a CSV line. -/
def csvSplit (cs : List Char) : List (List Char) := csvSplitAux cs []

/-- The replacement `p.replace(/^"|"$/g, "")` of line 85 of the source:
remove one leading and one trailing double quote when present. -/
def stripOuterQuotes (cs : List Char) : List Char :=
  let cs1 := match cs with
    | '"' :: rest => rest
    | other => other
  (match cs1.reverse with
    | '"' :: rest => rest
    | other => other).reverse

/-- Field normalisation applied to every part on line 85 of the source:
trim, then strip the outer quotes. -/
def cleanField (cs : List Char) : List Char := stripOuterQuotes (jsTrim cs)

/-- Tag separator class `[;|\s]` of line 91 of the source. -/
def isTagSep (c : Char) : Bool := c = ';' || c = '|' || isJsSpace c

/-- Split at every tag separator character. Splitting at single separator
characters followed by dropping empty pieces coincides with the source
splitting on the regex run `[;|\s]+` followed by `filter(Boolean)`. -/
def tagSplitAux : List Char → List Char → List (List Char)
  | [], acc => [acc.reverse]
  | c :: rest, acc =>
    if isTagSep c then acc.reverse :: tagSplitAux rest []
    else tagSplitAux rest (c :: acc)

/-- Tag field split of line 91 of the source:
`tagsString.split(/[;|\s]+/).filter(Boolean)`. -/
def tagsOfField (cs : List Char) : List String :=
  ((tagSplitAux cs []).filter (fun p => !p.isEmpty)).map (fun p => String.mk p)

/-- Containment of `needle` as a contiguous subsequence, as JavaScript
`String.prototype.includes`. -/
def containsSeq (needle : List Char) : List Char → Bool
  | [] => needle.isEmpty
  | c :: rest => decide (needle.isPrefixOf (c :: rest)) || containsSeq needle rest

/-- Processing of one line of the CSV import, the body of the `forEach` at
lines 78-102 of the source: skip blank lines; skip line 0 when its
lowercasing contains "kanji"; split, normalise the fields, and build a
flashcard when there are at least two fields and the kanji field is
non-empty. -/
def parseLine (index : Nat) (line : List Char) (id : String) (now : Int) :
    List Flashcard :=
  if (jsTrim line).isEmpty then []
  else if index = 0 && containsSeq "kanji".toList (line.map Char.toLower) then []
  else
    let parts := (csvSplit line).map cleanField
    if 2 ≤ parts.length then
      let vocab : VocabularyItem :=
        { kanji := String.mk (parts.getD 0 [])
          kana := String.mk (parts.getD 1 [])
          romaji := String.mk (parts.getD 2 [])
          meanings := String.mk (parts.getD 3 []) }
      let tagsString := parts.getD 4 []
      let tags := if tagsString.isEmpty then [] else tagsOfField tagsString
      if vocab.kanji = "" then [] else [createFlashcard vocab tags id now]
    else []

/-- Embedding of `parseCSVImports` from `src/unnamed/part_002` lines 71-105.
The source pushes at most one card per line, in line order; `mkId` supplies
the generated id for the card of each line index. -/
def parseCSVImports (csvText : String) (now : Int) (mkId : Nat → String) :
    List Flashcard :=
  (splitLines csvText.toList).enum.flatMap
    (fun p => parseLine p.1 p.2 (mkId p.1) now)

/-! Persistence layer, `loadFlashcards` / `saveFlashcards` from
`src/unnamed/part_002` lines 107-212. The browser storage is modelled as an
explicit state; the asynchronous functions become state transformers
returning an outcome together with the successor state.

The legacy localStorage slot is abstracted to the parse class of its
content: the code only inspects the stored text through `JSON.parse` and
`Array.isArray`, so each stored non-empty text either throws on parse,
parses to a non-array value, or parses to an array of cards. An absent or
empty stored text (both falsy in the `if (lsData)` test) is `none`.

The read transaction of `loadFlashcards` is assumed to succeed whenever the
engine is available; only the failure modes exercised by the specification
are modelled: an unavailable engine (`openDB` rejects, i.e. `indexedDB`
missing) and a failing readwrite transaction (`tx.onerror` fires and the
transaction rolls back, leaving the store unchanged). -/

/-- Parse class of the legacy localStorage text, as observed through
`JSON.parse` and `Array.isArray` at lines 142-145 of the source. -/
inductive ParseClass where
  | invalid
  | notArray
  | array (cards : List Flashcard)
  deriving Repr, DecidableEq

/-- State of the browser storage: the legacy localStorage slot, whether the
IndexedDB engine is available, whether a readwrite transaction fails, and
the content of the IndexedDB object store. -/
structure StorageState where
  legacy : Option ParseClass
  idbAvailable : Bool
  writeTxFails : Bool
  idb : List Flashcard
  deriving Repr, DecidableEq

/-- Completion of a `saveFlashcards` call: the returned promise either
resolves or rejects. -/
inductive SaveOutcome where
  | resolved
  | rejected
  deriving Repr, DecidableEq

/-- Value produced by a `loadFlashcards` call. The declared return type of
the source is `Flashcard[]`, but on the migration path the function returns
whatever `JSON.parse` produced, which need not be an array; `nonListValue`
stands for any such non-array value. -/
inductive LoadResult where
  | cards (cs : List Flashcard)
  | nonListValue
  deriving Repr, DecidableEq

/-- Embedding of `saveFlashcards` from `src/unnamed/part_002` lines 173-205.
When `openDB` rejects (engine unavailable) the `catch` block swallows the
error after logging, so the async function resolves with nothing persisted.
When the engine is available, the returned promise is the transaction
promise: a failing transaction rejects with the store rolled back, a
successful transaction commits clear-then-put-all, i.e. replaces the store
content with `cards`. -/
def saveFlashcards (cards : List Flashcard) (s : StorageState) :
    SaveOutcome × StorageState :=
  if s.idbAvailable then
    if s.writeTxFails then (SaveOutcome.rejected, s)
    else (SaveOutcome.resolved, { s with idb := cards })
  else (SaveOutcome.resolved, s)

/-- The IndexedDB branch of `loadFlashcards`, lines 158-171 of the source:
read everything from the store, returning `[]` when `openDB` rejects. -/
def loadFromIDB (s : StorageState) : LoadResult × StorageState :=
  if s.idbAvailable then (LoadResult.cards s.idb, s) else (LoadResult.cards [], s)

/-- Embedding of `loadFlashcards` from `src/unnamed/part_002` lines 137-171.
Legacy slot absent: read from IndexedDB. Legacy text present but
`JSON.parse` throws: the error is caught, the legacy slot is left untouched
and the IndexedDB branch runs. Legacy text parses to a non-array value:
migration is skipped, but `localStorage.removeItem` and `return cards`
still run, so the legacy slot is cleared and the parsed value is returned
directly. Legacy text parses to an array: when non-empty it is first saved
to IndexedDB (a rejected save is caught, leaving the legacy slot untouched
and falling through to the IndexedDB branch); then the legacy slot is
cleared and the array is returned. -/
def loadFlashcards (s : StorageState) : LoadResult × StorageState :=
  match s.legacy with
  | none => loadFromIDB s
  | some ParseClass.invalid => loadFromIDB s
  | some ParseClass.notArray => (LoadResult.nonListValue, { s with legacy := none })
  | some (ParseClass.array cards) =>
    if 0 < cards.length then
      match saveFlashcards cards s with
      | (SaveOutcome.resolved, s1) => (LoadResult.cards cards, { s1 with legacy := none })
      | (SaveOutcome.rejected, s1) => loadFromIDB s1
    else (LoadResult.cards cards, { s with legacy := none })

/-! Sample values used by the witness and counterexample theorems. -/

/-- Sample card with the ease factor exactly at the 1.3 floor. -/
def floorCard : Flashcard :=
  { id := "c1"
    kanji := "水"
    kana := "みず"
    romaji := "mizu"
    meanings := "water"
    interval := 0
    repetition := 0
    ef := 13/10
    nextReview := 0
    tags := [] }

/-- Sample storage state whose legacy slot parses to a non-array value. -/
def stateNotArray : StorageState :=
  { legacy := some ParseClass.notArray
    idbAvailable := true
    writeTxFails := false
    idb := [floorCard] }

/-- Sample storage state whose legacy slot fails to parse. -/
def stateInvalid : StorageState :=
  { legacy := some ParseClass.invalid
    idbAvailable := true
    writeTxFails := false
    idb := [floorCard] }

/-- Sample storage state with the storage engine unavailable. -/
def stateUnavailable : StorageState :=
  { legacy := none
    idbAvailable := false
    writeTxFails := false
    idb := [] }

/-- Sample storage state with an available engine whose readwrite
transactions fail. -/
def stateTxFails : StorageState :=
  { legacy := none
    idbAvailable := true
    writeTxFails := true
    idb := [] }

theorem jsRound_intCast_mul_ge (i : Int) (ef : ℚ) (hi : 0 ≤ i) (hef : 13/10 ≤ ef) :
    i ≤ jsRound ((i : ℚ) * ef) := by
  have h1 : (1 : ℚ) ≤ ef := le_trans (by norm_num) hef
  have h2 : (i : ℚ) ≤ (i : ℚ) * ef := by
    have hi0 : (0 : ℚ) ≤ (i : ℚ) := by exact_mod_cast hi
    nlinarith
  have h3 : ((i : ℚ) + 1/2) ≤ ((i : ℚ) * ef + 1/2) := by linarith
  have h4 : ⌊(i : ℚ) + 1/2⌋ = i := by
    rw [add_comm, Int.floor_add_int]
    norm_num
  calc i = ⌊(i : ℚ) + 1/2⌋ := h4.symm
    _ ≤ ⌊(i : ℚ) * ef + 1/2⌋ := Int.floor_mono h3
    _ = jsRound ((i : ℚ) * ef) := rfl

theorem calculateReview_ef_ge (card : Flashcard) (quality now : Int)
    (hef : 13/10 ≤ card.ef) : 13/10 ≤ (calculateReview card quality now).ef := by
  simp only [calculateReview]
  by_cases h3 : (3 : Int) ≤ quality
  · rw [if_pos h3]
    split
    · exact le_refl _
    · next h => exact le_of_not_lt h
  · rw [if_neg h3]
    exact hef

theorem calculateReview_interval_nonneg (card : Flashcard) (quality now : Int)
    (hint : 0 ≤ card.interval) (hef : 13/10 ≤ card.ef) :
    0 ≤ (calculateReview card quality now).interval := by
  simp only [calculateReview]
  by_cases h3 : (3 : Int) ≤ quality
  · rw [if_pos h3]
    by_cases h0 : card.repetition = 0
    · simp [h0]
    · by_cases h1 : card.repetition = 1
      · simp [h0, h1]
      · rw [if_neg h0, if_neg h1]
        have h2 : (0 : ℚ) ≤ (card.interval : ℚ) * card.ef + 1/2 := by
          have hi0 : (0 : ℚ) ≤ (card.interval : ℚ) := by exact_mod_cast hint
          nlinarith
        exact Int.le_floor.mpr (by exact_mod_cast h2)
  · rw [if_neg h3]
    norm_num

theorem calculateReview_repetition_pass (card : Flashcard) (quality now : Int)
    (h3 : 3 ≤ quality) :
    (calculateReview card quality now).repetition = card.repetition + 1 := by
  simp only [calculateReview]
  rw [if_pos h3]

/-- Invariant reached after two passing reviews: ease factor at or above the
floor, non-negative interval, repetition count at least two. -/
def GrowthInv (card : Flashcard) : Prop :=
  13/10 ≤ card.ef ∧ 0 ≤ card.interval ∧ 2 ≤ card.repetition

theorem calculateReview_growth_step (card : Flashcard) (quality now : Int)
    (h3 : 3 ≤ quality) (hP : GrowthInv card) :
    card.interval ≤ (calculateReview card quality now).interval ∧
      GrowthInv (calculateReview card quality now) := by
  obtain ⟨hef, hint, hrep⟩ := hP
  have h0 : card.repetition ≠ 0 := by omega
  have h1 : card.repetition ≠ 1 := by omega
  have hivl : (calculateReview card quality now).interval =
      jsRound ((card.interval : ℚ) * card.ef) := by
    simp only [calculateReview]
    rw [if_pos h3, if_neg h0, if_neg h1]
  have hmono : card.interval ≤ (calculateReview card quality now).interval := by
    rw [hivl]
    exact jsRound_intCast_mul_ge card.interval card.ef hint hef
  refine ⟨hmono, calculateReview_ef_ge card quality now hef, le_trans hint hmono, ?_⟩
  rw [calculateReview_repetition_pass card quality now h3]
  omega

/-- C1: for every StudyItem and every integer quality in `[0,5]`,
`computeReview` follows the SM-2 update of the spec: on a pass
(`quality >= 3`) the new interval is 1 when `repetitionCount = 0`, 6 when
`repetitionCount = 1`, and `round(interval * easeFactor)` otherwise, and
`repetitionCount` increases by one; on a fail (`quality < 3`) the
repetition count resets to 0 and the interval to 1; in both cases
`nextReviewAt = now + interval * 86400000` for the new interval. -/
theorem calculateReview_matches_sm2_spec (card : Flashcard) (quality now : Int)
    (h0 : 0 ≤ quality) (h5 : quality ≤ 5) :
    (3 ≤ quality →
      (card.repetition = 0 → (calculateReview card quality now).interval = 1) ∧
      (card.repetition = 1 → (calculateReview card quality now).interval = 6) ∧
      (card.repetition ≠ 0 → card.repetition ≠ 1 →
        (calculateReview card quality now).interval =
          jsRound ((card.interval : ℚ) * card.ef)) ∧
      (calculateReview card quality now).repetition = card.repetition + 1) ∧
    (quality < 3 →
      (calculateReview card quality now).repetition = 0 ∧
      (calculateReview card quality now).interval = 1) ∧
    (calculateReview card quality now).nextReview =
      now + (calculateReview card quality now).interval * 86400000 := by
  have hm : ∀ x : Int, now + x * 24 * 60 * 60 * 1000 = now + x * 86400000 := by
    intro x
    ring
  refine ⟨fun h3 => ⟨fun hr0 => ?_, fun hr1 => ?_, fun hn0 hn1 => ?_, ?_⟩,
    fun hlt => ⟨?_, ?_⟩, ?_⟩
  · simp only [calculateReview]
    rw [if_pos h3, if_pos hr0]
  · simp only [calculateReview]
    rw [if_pos h3]
    have hr0 : ¬ card.repetition = 0 := by omega
    rw [if_neg hr0, if_pos hr1]
  · simp only [calculateReview]
    rw [if_pos h3, if_neg hn0, if_neg hn1]
  · exact calculateReview_repetition_pass card quality now h3
  · simp only [calculateReview]
    rw [if_neg (by omega : ¬ (3 : Int) ≤ quality)]
  · simp only [calculateReview]
    rw [if_neg (by omega : ¬ (3 : Int) ≤ quality)]
  · simp only [calculateReview]
    exact hm _

/-- Witness for C1 at the fresh card and quality 4. -/
theorem calculateReview_matches_sm2_spec_witness :
    (3 ≤ (4 : Int) →
      (floorCard.repetition = 0 → (calculateReview floorCard 4 0).interval = 1) ∧
      (floorCard.repetition = 1 → (calculateReview floorCard 4 0).interval = 6) ∧
      (floorCard.repetition ≠ 0 → floorCard.repetition ≠ 1 →
        (calculateReview floorCard 4 0).interval =
          jsRound ((floorCard.interval : ℚ) * floorCard.ef)) ∧
      (calculateReview floorCard 4 0).repetition = floorCard.repetition + 1) ∧
    ((4 : Int) < 3 →
      (calculateReview floorCard 4 0).repetition = 0 ∧
      (calculateReview floorCard 4 0).interval = 1) ∧
    (calculateReview floorCard 4 0).nextReview =
      0 + (calculateReview floorCard 4 0).interval * 86400000 :=
  calculateReview_matches_sm2_spec floorCard 4 0 (by decide) (by decide)

/-- C4: for every StudyItem and every integer quality in `[0,5]`, the
read-only preview `getNextInterval` returns exactly the interval field that
`calculateReview` would compute on the same inputs (being a plain function
into the integers, it changes no field of the card). -/
theorem getNextInterval_eq_calculateReview_interval (card : Flashcard)
    (quality now : Int) (_h0 : 0 ≤ quality) (_h5 : quality ≤ 5) :
    getNextInterval card quality = (calculateReview card quality now).interval :=
  rfl

/-- Witness for C4 at the fresh card and quality 3. -/
theorem getNextInterval_eq_calculateReview_interval_witness :
    getNextInterval floorCard 3 = (calculateReview floorCard 3 7).interval :=
  getNextInterval_eq_calculateReview_interval floorCard 3 7 (by decide) (by decide)

/-- C7: for every StudyItem and every quality below 3 (a fail),
`calculateReview` leaves the ease factor unchanged; the update formula and
the 1.3 clamp run only under the `quality >= 3` guard. -/
theorem fail_leaves_easeFactor_unchanged (card : Flashcard) (quality now : Int)
    (h : quality < 3) : (calculateReview card quality now).ef = card.ef := by
  simp only [calculateReview]
  rw [if_neg (by omega : ¬ (3 : Int) ≤ quality)]

/-- Witness for C7 at the fresh card and quality 0. -/
theorem fail_leaves_easeFactor_unchanged_witness :
    (calculateReview floorCard 0 5).ef = floorCard.ef :=
  fail_leaves_easeFactor_unchanged floorCard 0 5 (by decide)

/-- C2: for every StudyItem whose ease factor is at least 1.3 and every
finite sequence of quality ratings in `[0,5]`, iterating `calculateReview`
never produces an ease factor below 1.3. -/
theorem easeFactor_never_below_floor (card : Flashcard) (qs : List Int) (now : Int)
    (hef : 13/10 ≤ card.ef) (hqs : ∀ q ∈ qs, 0 ≤ q ∧ q ≤ 5) :
    13/10 ≤ (applyReviews card qs now).ef := by
  induction qs generalizing card with
  | nil => exact hef
  | cons q qs ih =>
    have hstep : 13/10 ≤ (calculateReview card q now).ef :=
      calculateReview_ef_ge card q now hef
    exact ih (calculateReview card q now) hstep (fun r hr => hqs r (List.mem_cons_of_mem q hr))

/-- Witness for C2 at the floor card and the rating sequence 4, 0, 2. -/
theorem easeFactor_never_below_floor_witness :
    13/10 ≤ (applyReviews floorCard [4, 0, 2] 0).ef :=
  easeFactor_never_below_floor floorCard [4, 0, 2] 0 (le_refl _) (by decide)

/-- C3: for every list of cards and every time `now`, `getDueCards` contains
exactly the input cards with `nextReview ≤ now`, and its result is sorted
ascending by `nextReview`. -/
theorem getDueCards_mem_and_sorted (cards : List Flashcard) (now : Int) :
    (∀ c, c ∈ getDueCards cards now ↔ c ∈ cards ∧ c.nextReview ≤ now) ∧
    List.Pairwise (fun a b => a.nextReview ≤ b.nextReview) (getDueCards cards now) := by
  constructor
  · intro c
    unfold getDueCards
    rw [List.mem_mergeSort, List.mem_filter, decide_eq_true_eq]
  · unfold getDueCards
    refine List.Pairwise.imp (fun h => of_decide_eq_true h) ?_
    refine List.sorted_mergeSort ?_ ?_ _
    · intro a b c hab hbc
      rw [decide_eq_true_eq] at hab hbc ⊢
      omega
    · intro a b
      rcases Int.le_total a.nextReview b.nextReview with h | h
      · simp [h]
      · simp [h]

/-- C8: for a fixed quality of at least 4 and a StudyItem satisfying the
data-model invariants (`easeFactor ≥ 1.3`, `interval ≥ 0`,
`repetitionCount ≥ 0`), the interval sequence produced by repeated
`calculateReview` is non-decreasing from the third repetition onward (here
from the second onward, which is stronger). -/
theorem interval_nondecreasing_after_two_reviews (card : Flashcard)
    (quality now : Int) (hq4 : 4 ≤ quality) (_hq5 : quality ≤ 5)
    (hef : 13/10 ≤ card.ef) (hint : 0 ≤ card.interval)
    (hrep : 0 ≤ card.repetition) (n : Nat) (hn : 2 ≤ n) :
    (reviewSeq card quality now n).interval ≤
      (reviewSeq card quality now (n + 1)).interval := by
  have h3 : 3 ≤ quality := by omega
  have hP2 : GrowthInv (reviewSeq card quality now 2) := by
    refine ⟨calculateReview_ef_ge _ _ _ (calculateReview_ef_ge _ _ _ hef), ?_, ?_⟩
    · exact calculateReview_interval_nonneg _ _ _
        (calculateReview_interval_nonneg _ _ _ hint hef)
        (calculateReview_ef_ge _ _ _ hef)
    · show 2 ≤ (calculateReview (calculateReview card quality now) quality now).repetition
      rw [calculateReview_repetition_pass _ _ _ h3,
        calculateReview_repetition_pass _ _ _ h3]
      omega
  have hstep : ∀ m : Nat, GrowthInv (reviewSeq card quality now (m + 2)) := by
    intro m
    induction m with
    | zero => exact hP2
    | succ k ih => exact (calculateReview_growth_step _ _ now h3 ih).2
  obtain ⟨m, rfl⟩ : ∃ m, n = m + 2 := ⟨n - 2, by omega⟩
  exact (calculateReview_growth_step _ _ now h3 (hstep m)).1

/-- Witness for C8 at the floor card, quality 4, two reviews done. -/
theorem interval_nondecreasing_after_two_reviews_witness :
    (reviewSeq floorCard 4 0 2).interval ≤ (reviewSeq floorCard 4 0 3).interval :=
  interval_nondecreasing_after_two_reviews floorCard 4 0 (by decide) (by decide)
    (le_refl _) (by decide) (by decide) 2 (by decide)

/-- C9: the single import line `食べる,たべる,taberu,To eat,verb;n5` (no
header) yields exactly one card with kanji `食べる`, kana `たべる`, romaji
`taberu`, meaning `To eat`, tags `verb` and `n5` (the tag field split on
`;`, `|` or whitespace), and the fresh-item scheduling fields interval 0,
repetition 0, ease factor 2.5, next review at `now`. -/
theorem parseCSVImports_concrete_line (now : Int) (mkId : Nat → String) :
    parseCSVImports "食べる,たべる,taberu,To eat,verb;n5" now mkId =
      [{ id := mkId 0
         kanji := "食べる"
         kana := "たべる"
         romaji := "taberu"
         meanings := "To eat"
         interval := 0
         repetition := 0
         ef := 5/2
         nextReview := now
         tags := ["verb", "n5"] }] :=
  rfl

theorem parseLine_short (index : Nat) (line : List Char) (id : String) (now : Int)
    (h : (csvSplit line).length < 2) : parseLine index line id now = [] := by
  have hlen : ((csvSplit line).map cleanField).length < 2 := by
    rw [List.length_map]
    exact h
  simp only [parseLine]
  split_ifs with hblank hheader hlen2 hkanji
  · rfl
  · rfl
  · rfl
  · exact absurd hlen2 (by omega)
  · rfl

/-- C10: every non-blank line that the quote-aware comma split cuts into
fewer than two fields is dropped, even when its first field is non-empty:
a text all of whose lines split into fewer than two fields imports no card
at all (in particular the one-column line `食べる`). -/
theorem parseCSVImports_drops_short_lines (s : String) (now : Int)
    (mkId : Nat → String)
    (h : ∀ line ∈ splitLines s.toList, (csvSplit line).length < 2) :
    parseCSVImports s now mkId = [] := by
  unfold parseCSVImports
  have hgen : ∀ l : List (ℕ × List Char), (∀ p ∈ l, (csvSplit p.2).length < 2) →
      l.flatMap (fun p => parseLine p.1 p.2 (mkId p.1) now) = [] := by
    intro l
    induction l with
    | nil => intro _; rfl
    | cons p ps ih =>
      intro hall
      rw [List.flatMap_cons,
        parseLine_short _ _ _ _ (hall p (List.mem_cons_self p ps)),
        List.nil_append]
      exact ih (fun q hq => hall q (List.mem_cons_of_mem p hq))
  apply hgen
  intro p hp
  obtain ⟨i, x⟩ := p
  obtain ⟨hlt, heq⟩ := List.mem_enum hp
  exact h x (heq ▸ List.getElem_mem hlt)

/-- Witness for C10 at the one-column input line `食べる`. -/
theorem parseCSVImports_drops_short_lines_witness :
    parseCSVImports "食べる" 0 (fun _ => "") = [] :=
  parseCSVImports_drops_short_lines "食べる" 0 (fun _ => "") (by decide)

/-- C5 counterexample: when the legacy slot holds valid JSON that is not a
list, `loadFlashcards` deletes the legacy key (the claim says it is left
untouched) and returns the parsed non-list value instead of proceeding from
the durable store (which holds one card in this state). -/
theorem load_nonArray_deletes_legacy_counterexample :
    (loadFlashcards stateNotArray).2.legacy = none ∧
    (loadFlashcards stateNotArray).1 = LoadResult.nonListValue ∧
    LoadResult.nonListValue ≠ (loadFromIDB stateNotArray).1 :=
  ⟨rfl, rfl, by decide⟩

/-- C5 amended: only a legacy text on which `JSON.parse` throws leaves the
legacy key untouched, with migration skipped and the load proceeding from
the durable store; a legacy text that parses to a non-list value also skips
migration, but deletes the legacy key and is returned directly. -/
theorem load_migration_failure_behaviour (s : StorageState) :
    (s.legacy = some ParseClass.invalid →
      loadFlashcards s = loadFromIDB s ∧
      (loadFlashcards s).2.legacy = some ParseClass.invalid) ∧
    (s.legacy = some ParseClass.notArray →
      (loadFlashcards s).1 = LoadResult.nonListValue ∧
      (loadFlashcards s).2.legacy = none) := by
  constructor
  · intro h
    have h1 : loadFlashcards s = loadFromIDB s := by
      unfold loadFlashcards
      rw [h]
    refine ⟨h1, ?_⟩
    rw [h1]
    unfold loadFromIDB
    split
    · exact h
    · exact h
  · intro h
    unfold loadFlashcards
    rw [h]
    exact ⟨rfl, rfl⟩

/-- Witness for C5 at a state with unparsable legacy text and a state with
a non-list legacy value. -/
theorem load_migration_failure_behaviour_witness :
    (loadFlashcards stateInvalid = loadFromIDB stateInvalid ∧
      (loadFlashcards stateInvalid).2.legacy = some ParseClass.invalid) ∧
    ((loadFlashcards stateNotArray).1 = LoadResult.nonListValue ∧
      (loadFlashcards stateNotArray).2.legacy = none) :=
  ⟨(load_migration_failure_behaviour stateInvalid).1 rfl,
   (load_migration_failure_behaviour stateNotArray).2 rfl⟩

/-- C6 counterexample: with the storage engine unavailable,
`saveFlashcards` resolves successfully (not rejected) while persisting
nothing: the store still holds no card after saving one card. -/
theorem save_unavailable_resolves_counterexample :
    (saveFlashcards [floorCard] stateUnavailable).1 = SaveOutcome.resolved ∧
    (saveFlashcards [floorCard] stateUnavailable).1 ≠ SaveOutcome.rejected ∧
    (saveFlashcards [floorCard] stateUnavailable).2.idb = [] :=
  ⟨rfl, by decide, rfl⟩

/-- C6 amended: when the write transaction fails, `saveFlashcards` rejects
with the store unchanged; when the storage engine is unavailable, the error
is caught and logged and the call resolves successfully while persisting
nothing; `loadFlashcards` with the engine unavailable (and no legacy data)
returns the empty collection instead of propagating the error. -/
theorem save_load_error_behaviour (s : StorageState) (cards : List Flashcard) :
    (s.idbAvailable = true → s.writeTxFails = true →
      saveFlashcards cards s = (SaveOutcome.rejected, s)) ∧
    (s.idbAvailable = false → saveFlashcards cards s = (SaveOutcome.resolved, s)) ∧
    (s.idbAvailable = false → s.legacy = none →
      (loadFlashcards s).1 = LoadResult.cards []) := by
  refine ⟨fun ha ht => ?_, fun hna => ?_, fun hna hleg => ?_⟩
  · simp [saveFlashcards, ha, ht]
  · simp [saveFlashcards, hna]
  · unfold loadFlashcards
    rw [hleg]
    unfold loadFromIDB
    rw [hna]
    rfl

/-- Witness for C6 at a failing-transaction state and an
engine-unavailable state. -/
theorem save_load_error_behaviour_witness :
    saveFlashcards [floorCard] stateTxFails = (SaveOutcome.rejected, stateTxFails) ∧
    saveFlashcards [floorCard] stateUnavailable =
      (SaveOutcome.resolved, stateUnavailable) ∧
    (loadFlashcards stateUnavailable).1 = LoadResult.cards [] :=
  ⟨(save_load_error_behaviour stateTxFails [floorCard]).1 rfl rfl,
   (save_load_error_behaviour stateUnavailable [floorCard]).2.1 rfl,
   (save_load_error_behaviour stateUnavailable [floorCard]).2.2 rfl rfl⟩

end WpsNihongo
